import Mathlib

/-!
Verification of the utility layer of the `ldm` repository
(`src/ldm/util.py`): a shallow embedding in Lean 4 of
`parallel_data_prefetch`, its worker body `_do_parallel_data_prefetch`,
and `instantiate_from_config`, together with theorems about the claims
of the specification.

The multiprocessing queue is modelled as a message stream: each worker
contributes a finite list of messages (its output stream), and the
coordinator consumes an arrival sequence that can be any interleaving of
the worker streams (per-worker FIFO order is preserved, as in a shared
FIFO queue).  Python exceptions are modelled with `Except`/error
outcomes; a coordinator that blocks forever on `Q.get()` is modelled by
the distinguished outcome `hang`.
-/

namespace LdmUtil

/-- Python-level errors relevant to the embedded functions. -/
inductive PyErr where
  | valueError (msg : String)
  | typeError (msg : String)
  | keyError (msg : String)
  | indexError
  | zeroDivisionError
  | userError (msg : String)
  deriving DecidableEq, Repr

/-- The dynamically-typed `data` argument of `parallel_data_prefetch`:
a numpy array, a Python list, a dict (modelled as an association list in
insertion order), or a non-iterable scalar. -/
inductive PyData (α : Type) where
  | ndarray (xs : List α)
  | list (xs : List α)
  | dict (kvs : List (String × α))
  | scalar (x : α)
  deriving DecidableEq, Repr

/-- A message on the shared queue `Q`: either a result envelope
`[idx, res]` or the completion marker `"Done"`
(`src/ldm/util.py`, lines 154-155). -/
inductive Msg (γ : Type) where
  | envelope (idx : Nat) (res : List γ)
  | done
  deriving DecidableEq, Repr

/-- Embedding of the input validation and conversion of
`parallel_data_prefetch` (`src/ldm/util.py`, lines 165-180):
an ndarray with `target_data_type == "list"` raises `ValueError`;
an iterable is accepted, a dict is replaced by its values (in insertion
order) with a printed warning (the returned `Bool` records whether the
dict warning was printed); any other input raises `TypeError`.
`np.asarray` / `list(...)` on an already sequential input are identities
in this model. -/
def normalizeData (data : PyData α) (target : String) :
    Except PyErr (List α × Bool) :=
  match data with
  | .ndarray xs =>
      if target = "list" then
        .error (.valueError "list expected but function got ndarray.")
      else .ok (xs, false)
  | .list xs => .ok (xs, false)
  | .dict kvs => .ok (kvs.map Prod.snd, true)
  | .scalar _ =>
      .error (.typeError "The data, that shall be processed parallel has to be either an np.ndarray or an Iterable.")

/-- Models `np.array_split(data, n)` (numpy documented behaviour): for
`l = len(data)`, the first `l % n` sub-arrays have size `l / n + 1` and
the remaining `n - l % n` sub-arrays have size `l / n`. -/
def splitSizes (l n : Nat) : List Nat :=
  List.replicate (l % n) (l / n + 1) ++ List.replicate (n - l % n) (l / n)

/-- Cuts `xs` into consecutive chunks with the given sizes. -/
def takeChunks (xs : List α) : List Nat → List (List α)
  | [] => []
  | s :: ss => xs.take s :: takeChunks (xs.drop s) ss

/-- Model of `np.array_split(xs, n)` for `n ≥ 1`. -/
def arraySplit (xs : List α) (n : Nat) : List (List α) :=
  takeChunks xs (splitSizes xs.length n)

/-- The stride of the non-ndarray chunking
(`src/ldm/util.py`, lines 195-199):
`int(len(data) / n_proc + 1)` if `len(data) % n_proc != 0` else
`int(len(data) / n_proc)`. -/
def pyStep (l n : Nat) : Nat :=
  if l % n ≠ 0 then l / n + 1 else l / n

/-- The non-ndarray chunk list
`[data[i : i + step] for i in range(0, len(data), step)]`
(`src/ldm/util.py`, lines 200-204), with `st = pyStep`:
`range(0, l, st)` has `⌈l / st⌉` elements `0, st, 2·st, …`. -/
def listSplit (xs : List α) (n : Nat) : List (List α) :=
  (List.range ((xs.length + pyStep xs.length n - 1) / pyStep xs.length n)).map
    fun k => (xs.drop (k * pyStep xs.length n)).take (pyStep xs.length n)

/-- The chunking step of `parallel_data_prefetch`
(`src/ldm/util.py`, lines 189-205).  `np.array_split` raises for
`n = 0`; the list path raises `ZeroDivisionError` at `len(data) % 0`
for `n = 0` and `ValueError` from `range(0, 0, 0)` when the computed
step is `0` (empty input). -/
def mkChunks (xs : List α) (n : Nat) (target : String) :
    Except PyErr (List (List α)) :=
  if target = "ndarray" then
    if n = 0 then .error (.valueError "number sections must be larger than 0.")
    else .ok (arraySplit xs n)
  else
    if n = 0 then .error .zeroDivisionError
    else if pyStep xs.length n = 0 then
      .error (.valueError "range() arg 3 must not be zero")
    else .ok (listSplit xs n)

/-- Embedding of `_do_parallel_data_prefetch`
(`src/ldm/util.py`, lines 146-155): the worker calls
`func(data, worker_id=idx)` when `idx_to_fn` is set, else `func(data)`,
then puts `[idx, res]` followed by `"Done"` on the queue.  If `func`
raises, neither `put` is ever executed: the worker's message stream is
empty and the exception dies with the worker process/thread. -/
def do_parallel_data_prefetch (func : List α → Option Nat → Except PyErr (List γ))
    (data : List α) (idx : Nat) (idx_to_fn : Bool) : List (Msg γ) :=
  match (if idx_to_fn then func data (some idx) else func data none) with
  | .ok res => [Msg.envelope idx res, Msg.done]
  | .error _ => []

/-- The per-worker message streams: one stream per `(i, part)` pair of
`enumerate(...)` (`src/ldm/util.py`, lines 190-205). -/
def workerStreams (func : List α → Option Nat → Except PyErr (List γ))
    (uw : Bool) (args : List (Nat × List α)) : List (List (Msg γ)) :=
  args.map fun p => do_parallel_data_prefetch func p.2 p.1 uw

/-- Everything `parallel_data_prefetch` does before any worker is
started: validation, chunking, and the `arguments[i] for i in
range(n_proc)` worker-argument assembly
(`src/ldm/util.py`, lines 165-209).  When the chunk list has fewer than
`n_proc` entries, `arguments[i]` raises `IndexError` before any worker
is started.  The `Bool` records whether the dict warning was printed. -/
def setupArgs (data : PyData α) (n : Nat) (target : String) :
    Except PyErr (List (Nat × List α) × Bool) :=
  match normalizeData data target with
  | .error e => .error e
  | .ok (xs, w) =>
    match mkChunks xs n target with
    | .error e => .error e
    | .ok chunks =>
      if chunks.length < n then .error .indexError
      else .ok ((chunks.enum.take n), w)

/-- Is a queue message the completion marker `"Done"`? -/
def isDoneMsg : Msg γ → Bool
  | .done => true
  | .envelope _ _ => false

/-- Is a queue message a result envelope `[idx, res]`? -/
def isEnvMsg : Msg γ → Bool
  | .done => false
  | .envelope _ _ => true

/-- The result collection loop of `parallel_data_prefetch`
(`src/ldm/util.py`, lines 221-228): while `k < n_proc`, the coordinator
blocks on `Q.get()`; on `"Done"` it increments `k`, on an envelope
`[i, r]` it stores `gather_res[i] = r`.  `msgs` is the arrival sequence
on the queue; if it runs out while `k < n_proc` the coordinator blocks
forever, modelled by `none`. -/
def collectGo (n : Nat) : Nat → List (List γ) → List (Msg γ) →
    Option (List (List γ))
  | k, g, msgs =>
    if n ≤ k then some g
    else
      match msgs with
      | [] => none
      | Msg.done :: rest => collectGo n (k + 1) g rest
      | Msg.envelope i r :: rest => collectGo n k (g.set i r) rest

/-- The reassembled return value of `parallel_data_prefetch`:
concatenated array for `"ndarray"`, flattened list for `"list"`,
the raw `gather_res` otherwise (`src/ldm/util.py`, lines 241-253). -/
inductive PrefetchResult (γ : Type) where
  | arr (xs : List γ)
  | lst (xs : List γ)
  | raw (xs : List (List γ))
  deriving DecidableEq, Repr

/-- Reassembly in partition-index order
(`src/ldm/util.py`, lines 241-253): `np.concatenate(gather_res)` and
`out.extend(r)` are both the concatenation of `gather_res` in index
order in this model. -/
def assemble (target : String) (g : List (List γ)) : PrefetchResult γ :=
  if target = "ndarray" then .arr g.flatten
  else if target = "list" then .lst g.flatten
  else .raw g

/-- Observable outcome of a `parallel_data_prefetch` call: a returned
value, a raised Python error, or a coordinator blocked forever on
`Q.get()`. -/
inductive Outcome (γ : Type) where
  | ok (r : PrefetchResult γ)
  | error (e : PyErr)
  | hang
  deriving DecidableEq, Repr

/-- Embedding of `parallel_data_prefetch`
(`src/ldm/util.py`, lines 158-253), parameterised by the arrival
sequence `arrival` of queue messages (the nondeterministic interleaving
of the worker streams; theorems constrain it with `Arrival`).  Errors
raised before the workers are started surface as `.error`; a collection
loop that never sees `n_proc` completion markers is `.hang`. -/
def parallel_data_prefetch (func : List α → Option Nat → Except PyErr (List γ))
    (data : PyData α) (n_proc : Nat) (target : String) (use_worker_id : Bool)
    (arrival : List (Msg γ)) : Outcome γ :=
  match setupArgs data n_proc target with
  | .error e => .error e
  | .ok (_, _) =>
    match collectGo n_proc 0 (List.replicate n_proc ([] : List γ)) arrival with
    | none => .hang
    | some g => .ok (assemble target g)

/-- The worker streams of a `parallel_data_prefetch` call
(empty when the call fails before spawning workers). -/
def prefetchStreams (func : List α → Option Nat → Except PyErr (List γ))
    (uw : Bool) (data : PyData α) (n : Nat) (target : String) :
    List (List (Msg γ)) :=
  match setupArgs data n target with
  | .error _ => []
  | .ok (args, _) => workerStreams func uw args

/-- A `func` that never raises: it applies the pure transformation `F`
to its partition and ignores any `worker_id`. -/
def pureF (F : List α → List γ) : List α → Option Nat → Except PyErr (List γ) :=
  fun l _ => .ok (F l)

/-- Relation `Arrival ss ms`: the arrival sequence `ms` at the coordinator is an
interleaving of the per-worker streams `ss` — messages of one worker
arrive in their emission order (the queue is FIFO per producer), while
different workers' messages interleave arbitrarily. -/
inductive Arrival {μ : Type} : List (List μ) → List μ → Prop where
  | nil {ss : List (List μ)} (h : ∀ s ∈ ss, s = []) : Arrival ss []
  | cons {ss : List (List μ)} {i : Nat} {x : μ} {t out : List μ}
      (hget : ss[i]? = some (x :: t))
      (hrest : Arrival (ss.set i t) out) : Arrival ss (x :: out)

/-- The index/result pair carried by an envelope message, if any. -/
def envOf : Msg γ → Option (Nat × List γ)
  | .envelope i r => some (i, r)
  | .done => none

/-- Number of completion markers in a message list. -/
def countDones (ms : List (Msg γ)) : Nat := ms.countP isDoneMsg

/-- Number of completion markers still pending in the worker streams. -/
def donesIn (ss : List (List (Msg γ))) : Nat := countDones ss.flatten

/-- The envelopes still pending in the worker streams, in stream order. -/
def envsIn (ss : List (List (Msg γ))) : List (Nat × List γ) :=
  ss.flatten.filterMap envOf

/-- First result associated to a partition index in an envelope list. -/
def idxLookup : List (Nat × List γ) → Nat → Option (List γ)
  | [], _ => none
  | (i, r) :: rest, j => if i = j then some r else idxLookup rest j

/-- Shape of a (possibly partially consumed) worker stream on a run in
which the worker either already failed (empty stream) or succeeds: a
suffix of `[envelope i r, done]` with `i < n`. -/
def entryOk (n : Nat) (s : List (Msg γ)) : Prop :=
  (∃ i r, i < n ∧ s = [Msg.envelope i r, Msg.done]) ∨ s = [Msg.done] ∨ s = []

/-- Test `listPrefixEq a b`: the list `a` is an initial segment of `b`. -/
def listPrefixEq : List Char → List Char → Bool
  | [], _ => true
  | _ :: _, [] => false
  | a :: as, b :: bs => a == b && listPrefixEq as bs

/-- Python's `needle in hay` on strings: substring containment. -/
def strContains (hay needle : String) : Bool :=
  (List.range (hay.data.length + 1)).any fun i =>
    listPrefixEq needle.data (hay.data.drop i)

/-- Python's `key in d` on a dict, modelled on an association list. -/
def hasKey (kvs : List (String × V)) (k : String) : Bool :=
  kvs.any fun p => p.1 == k

/-- Python's `d[k]` / `d.get(k, ...)` lookup on a dict model. -/
def lookupKey : List (String × V) → String → Option V
  | [], _ => none
  | (k', v) :: rest, k => if k' == k then some v else lookupKey rest k

/-- The `config` argument of `instantiate_from_config`: either a plain
string or a mapping (an association list in insertion order). -/
inductive PyConfig (V : Type) where
  | str (s : String)
  | map (kvs : List (String × V))
  deriving DecidableEq, Repr

/-- What `instantiate_from_config` produces on success: Python `None`
for the two magic strings, or the object built by
`get_obj_from_str(config["target"])(**config.get("params", dict()))`,
recorded symbolically as the target value and the optional params value
(dynamic import is outside the model). -/
inductive InstObj (V : Type) where
  | pyNone
  | constructed (target : Option V) (params : Option V)
  deriving DecidableEq, Repr

/-- Python's `"target" in config`: key membership for a dict, substring
containment for a string. -/
def targetIn : PyConfig V → Bool
  | .str s => strContains s "target"
  | .map kvs => hasKey kvs "target"

/-- Python's `config == "<literal>"`: only a string compares equal to a
string literal; a dict never does. -/
def pyEqStr : PyConfig V → String → Bool
  | .str s, t => s == t
  | .map _, _ => false

/-- Embedding of `instantiate_from_config`
(`src/ldm/util.py`, lines 128-135): without a `"target"` key the two
magic strings return `None` and anything else raises
`KeyError("Expected key target to instantiate.")`; with a `"target"`
key a dict constructs the object and a string raises `TypeError`
(string indexing by a string). -/
def instantiate_from_config (config : PyConfig V) : Except PyErr (InstObj V) :=
  if targetIn config = false then
    if pyEqStr config "__is_first_stage__" then .ok .pyNone
    else if pyEqStr config "__is_unconditional__" then .ok .pyNone
    else .error (.keyError "Expected key target to instantiate.")
  else
    match config with
    | .map kvs => .ok (.constructed (lookupKey kvs "target") (lookupKey kvs "params"))
    | .str _ => .error (.typeError "string indices must be integers")

/-- The function `lambda x: x*2` applied to a Python list, as in the spec's list
scenario: sequence repetition, not elementwise doubling. -/
def pyListTimesTwo (l : List Nat) : List Nat := l ++ l

/-- The worker function of the failure-teardown scenario: raises on the
partition `[6, 7]` (partition index 3 of 8 for the input below) and
behaves as the identity elsewhere. -/
def failOn67 : List Nat → Option Nat → Except PyErr (List Nat) :=
  fun l _ => if l = [6, 7] then .error (.userError "boom") else .ok l

/-- The 16-element input of the failure-teardown scenario: 8 workers
get the two-element partitions `[0,1], [2,3], …, [14,15]`. -/
def dataFail : PyData Nat :=
  PyData.list [0, 1, 2, 3, 4, 5, 6, 7, 8, 9, 10, 11, 12, 13, 14, 15]

theorem collectGo_stop {n k : Nat} {g : List (List γ)} {msgs : List (Msg γ)}
    (h : n ≤ k) : collectGo n k g msgs = some g := by
  unfold collectGo
  simp [h]

theorem collectGo_nil {n k : Nat} {g : List (List γ)} (h : k < n) :
    collectGo n k g [] = none := by
  unfold collectGo
  simp [Nat.not_le.mpr h]

theorem collectGo_done {n k : Nat} {g : List (List γ)} {rest : List (Msg γ)}
    (h : k < n) : collectGo n k g (Msg.done :: rest) = collectGo n (k + 1) g rest := by
  conv_lhs => rw [collectGo]
  simp [Nat.not_le.mpr h]

theorem collectGo_env {n k : Nat} {g : List (List γ)} {i : Nat} {r : List γ}
    {rest : List (Msg γ)} (h : k < n) :
    collectGo n k g (Msg.envelope i r :: rest) = collectGo n k (g.set i r) rest := by
  conv_lhs => rw [collectGo]
  simp [Nat.not_le.mpr h]

/-- Indexing decomposition: a list with `s` at position `i` splits as
`pre ++ s :: suf`, and setting position `i` replaces just `s`. -/
theorem get_set_decomp {β : Type _} :
    ∀ (ss : List β) (i : Nat) (s t : β), ss[i]? = some s →
      ∃ pre suf, ss = pre ++ s :: suf ∧ ss.set i t = pre ++ t :: suf
  | [], i, s, t, h => by simp at h
  | a :: as, 0, s, t, h => by
      simp at h
      exact ⟨[], as, by simp [h], by simp [h]⟩
  | a :: as, i + 1, s, t, h => by
      simp only [List.getElem?_cons_succ] at h
      obtain ⟨pre, suf, h1, h2⟩ := get_set_decomp as i s t h
      exact ⟨a :: pre, suf, by simp [h1], by simp [h2]⟩

/-- An interleaving preserves the count of messages matched by any
predicate: arrival order permutes but never loses or duplicates. -/
theorem Arrival.countP_eq (p : μ → Bool) {ss : List (List μ)} {ms : List μ}
    (h : Arrival ss ms) : ms.countP p = ss.flatten.countP p := by
  induction h with
  | nil h => rw [List.flatten_eq_nil_iff.mpr h]
  | @cons ss i x t out hget _ ih =>
      obtain ⟨pre, suf, h1, h2⟩ := get_set_decomp ss i (x :: t) t hget
      rw [h2] at ih
      rw [h1]
      simp only [List.flatten_append, List.flatten_cons, List.countP_append,
        List.countP_cons] at ih ⊢
      omega

/-- Prepending an exhausted stream does not change the possible
arrival sequences. -/
theorem Arrival.cons_nil {ss : List (List μ)} {ms : List μ}
    (h : Arrival ss ms) : Arrival ([] :: ss) ms := by
  induction h with
  | nil h =>
      refine .nil ?_
      intro s hs
      rcases List.mem_cons.mp hs with rfl | hs
      · rfl
      · exact h _ hs
  | @cons ss i x t out hget _ ih =>
      exact .cons (i := i + 1) (by simpa using hget) ih

/-- Draining the streams one worker at a time, in order, is a valid
arrival sequence; it witnesses that every run has at least one
schedule. -/
theorem arrival_flatten : ∀ (ss : List (List μ)), Arrival ss ss.flatten := by
  intro ss
  induction ss with
  | nil => exact .nil (by simp)
  | cons s ss ih =>
      rw [List.flatten_cons]
      induction s with
      | nil => simpa using Arrival.cons_nil ih
      | cons x s' ih2 => exact .cons (i := 0) (t := s') (by simp) ih2

theorem idxLookup_eq_none_of_notmem {E : List (Nat × List γ)} {j : Nat}
    (h : j ∉ E.map Prod.fst) : idxLookup E j = none := by
  induction E with
  | nil => rfl
  | cons p E ih =>
      obtain ⟨i, r⟩ := p
      simp only [List.map_cons, List.mem_cons, not_or] at h
      rw [idxLookup, if_neg (fun he => h.1 he.symm), ih h.2]

theorem idxLookup_append_notmem {E rest : List (Nat × List γ)} {j : Nat}
    (h : j ∉ E.map Prod.fst) : idxLookup (E ++ rest) j = idxLookup rest j := by
  induction E with
  | nil => rfl
  | cons p E ih =>
      obtain ⟨i, r⟩ := p
      simp only [List.map_cons, List.mem_cons, not_or] at h
      rw [List.cons_append, idxLookup, if_neg (fun he => h.1 he.symm), ih h.2]

theorem idxLookup_middle_ne {A B : List (Nat × List γ)} {j j' : Nat} {r : List γ}
    (h : j ≠ j') : idxLookup (A ++ (j, r) :: B) j' = idxLookup (A ++ B) j' := by
  induction A with
  | nil => simp only [List.nil_append, idxLookup, if_neg h]
  | cons p A ih =>
      obtain ⟨i, s⟩ := p
      rw [List.cons_append, List.cons_append, idxLookup, idxLookup, ih]

/-- Correctness of the collection loop over an arbitrary interleaving:
if every pending stream is a (suffix of a) one-envelope-one-marker
stream with in-range indices, the pending completion markers exactly
cover the remaining wait count, and pending envelope indices are
pairwise distinct, then the loop returns a buffer holding, at each
index, the pending envelope's payload (or its prior content if no
envelope for that index is pending). -/
theorem collectGo_spec {γ : Type} {n : Nat} {ss : List (List (Msg γ))}
    {ms : List (Msg γ)} (harr : Arrival ss ms) :
    ∀ k (g : List (List γ)), g.length = n → k + donesIn ss = n →
    (∀ s ∈ ss, entryOk n s) →
    (∀ j, ((envsIn ss).map Prod.fst).count j ≤ 1) →
    ∃ g', collectGo n k g ms = some g' ∧ g'.length = n ∧
      ∀ j, j < n → g'[j]? = (idxLookup (envsIn ss) j).or g[j]? := by
  induction harr with
  | @nil ss h =>
      intro k g hg hk _ _
      have hfl : ss.flatten = [] := List.flatten_eq_nil_iff.mpr h
      have hd : donesIn ss = 0 := by
        simp [donesIn, countDones, hfl]
      have he : envsIn ss = [] := by simp [envsIn, hfl]
      refine ⟨g, collectGo_stop (by omega), hg, ?_⟩
      intro j _
      simp [he, idxLookup, Option.or]
  | @cons ss i x t out hget hrest ih =>
      intro k g hg hk hshape hcount
      obtain ⟨pre, suf, h1, h2⟩ := get_set_decomp ss i (x :: t) t hget
      have hmem : (x :: t) ∈ ss := by rw [h1]; simp
      rcases hshape _ hmem with ⟨j, r, hj, heq⟩ | heq | heq
      · -- stream i delivers its envelope
        have hx : x = Msg.envelope j r := by
          injection heq
        have ht : t = [Msg.done] := by
          injection heq with _ h'
        subst hx; subst ht
        have hdss : donesIn ss = countDones pre.flatten + countDones suf.flatten + 1 := by
          rw [donesIn, h1]
          simp [countDones, isDoneMsg]
          omega
        have hdss' : donesIn (ss.set i [Msg.done]) =
            countDones pre.flatten + countDones suf.flatten + 1 := by
          rw [donesIn, h2]
          simp [countDones, isDoneMsg]
          omega
        have hklt : k < n := by omega
        have henv : envsIn ss =
            pre.flatten.filterMap envOf ++ (j, r) :: suf.flatten.filterMap envOf := by
          rw [envsIn, h1]
          simp [envOf]
        have henv' : envsIn (ss.set i [Msg.done]) =
            pre.flatten.filterMap envOf ++ suf.flatten.filterMap envOf := by
          rw [envsIn, h2]
          simp [envOf]
        have hcount' : ∀ j0, ((envsIn (ss.set i [Msg.done])).map Prod.fst).count j0 ≤ 1 := by
          intro j0
          have := hcount j0
          rw [henv] at this
          rw [henv']
          simp only [List.map_append, List.map_cons, List.count_append,
            List.count_cons] at this ⊢
          omega
        have hshape' : ∀ s ∈ ss.set i [Msg.done], entryOk n s := by
          intro s hs
          rcases List.mem_or_eq_of_mem_set hs with hs | rfl
          · exact hshape _ hs
          · exact Or.inr (Or.inl rfl)
        obtain ⟨g', hcoll, hlen, hspec⟩ :=
          ih k (g.set j r) (by simp [hg]) (by omega) hshape' hcount'
        refine ⟨g', ?_, hlen, ?_⟩
        · rw [collectGo_env hklt, hcoll]
        · intro j0 hj0
          by_cases hjj : j = j0
          · subst hjj
            have h1c := hcount j
            rw [henv] at h1c
            simp only [List.map_append, List.map_cons, List.count_append,
              List.count_cons_self] at h1c
            have hnA : j ∉ (pre.flatten.filterMap envOf).map Prod.fst := by
              intro hmemA
              have := List.count_pos_iff.mpr hmemA
              omega
            have hnB : j ∉ (suf.flatten.filterMap envOf).map Prod.fst := by
              intro hmemB
              have := List.count_pos_iff.mpr hmemB
              omega
            have hL : idxLookup (envsIn ss) j = some r := by
              rw [henv, idxLookup_append_notmem hnA, idxLookup, if_pos rfl]
            have hL' : idxLookup (envsIn (ss.set i [Msg.done])) j = none := by
              rw [henv']
              refine idxLookup_eq_none_of_notmem ?_
              simp only [List.map_append, List.mem_append, not_or]
              exact ⟨hnA, hnB⟩
            rw [hL]
            have := hspec j hj0
            rw [hL'] at this
            rw [this]
            have hjg : j < g.length := by omega
            simp [Option.or, List.getElem?_set_self hjg]
          · have hL : idxLookup (envsIn ss) j0 =
                idxLookup (envsIn (ss.set i [Msg.done])) j0 := by
              rw [henv, henv', idxLookup_middle_ne hjj]
            have := hspec j0 hj0
            rw [← hL] at this
            rw [this, List.getElem?_set_ne hjj]
      · -- stream i delivers its completion marker
        have hx : x = Msg.done := by injection heq
        have ht : t = [] := by injection heq with _ h'
        subst hx; subst ht
        have hdss : donesIn ss = countDones pre.flatten + countDones suf.flatten + 1 := by
          rw [donesIn, h1]
          simp [countDones, isDoneMsg]
          omega
        have hdss' : donesIn (ss.set i []) =
            countDones pre.flatten + countDones suf.flatten := by
          rw [donesIn, h2]
          simp [countDones]
        have hklt : k < n := by omega
        have henv : envsIn ss = envsIn (ss.set i []) := by
          rw [envsIn, envsIn, h2, h1]
          simp [envOf]
        have hshape' : ∀ s ∈ ss.set i [], entryOk n s := by
          intro s hs
          rcases List.mem_or_eq_of_mem_set hs with hs | rfl
          · exact hshape _ hs
          · exact Or.inr (Or.inr rfl)
        obtain ⟨g', hcoll, hlen, hspec⟩ :=
          ih (k + 1) g hg (by omega) hshape' (by rw [← henv]; exact hcount)
        refine ⟨g', ?_, hlen, ?_⟩
        · rw [collectGo_done hklt, hcoll]
        · intro j0 hj0
          rw [henv]
          exact hspec j0 hj0
      · exact absurd heq (by simp)

theorem countDones_nil : countDones ([] : List (Msg γ)) = 0 := rfl

theorem countDones_done (rest : List (Msg γ)) :
    countDones (Msg.done :: rest) = countDones rest + 1 := by
  simp [countDones, isDoneMsg]

theorem countDones_env (i : Nat) (r : List γ) (rest : List (Msg γ)) :
    countDones (Msg.envelope i r :: rest) = countDones rest := by
  simp [countDones, isDoneMsg]

/-- If fewer completion markers than `n` ever arrive, the collection
loop never stops waiting: the coordinator blocks forever. -/
theorem collectGo_hang {γ : Type} {n : Nat} : ∀ (ms : List (Msg γ)) (k : Nat)
    (g : List (List γ)), k + countDones ms < n → collectGo n k g ms = none := by
  intro ms
  induction ms with
  | nil =>
      intro k g h
      rw [countDones_nil] at h
      exact collectGo_nil (by omega)
  | cons m rest ih =>
      intro k g h
      cases m with
      | done =>
          rw [countDones_done] at h
          rw [collectGo_done (by omega)]
          exact ih (k + 1) g (by omega)
      | envelope i r =>
          rw [countDones_env] at h
          rw [collectGo_env (by omega)]
          exact ih k (g.set i r) (by omega)

theorem do_parallel_pureF (F : List α → List γ) (l : List α) (idx : Nat) (uw : Bool) :
    do_parallel_data_prefetch (pureF F) l idx uw =
      [Msg.envelope idx (F l), Msg.done] := by
  cases uw <;> rfl

/-- When `func` never raises, each worker's stream is exactly one
envelope followed by one completion marker. -/
theorem workerStreams_pureF (F : List α → List γ) (uw : Bool)
    (args : List (Nat × List α)) :
    workerStreams (pureF F) uw args =
      args.map fun p => [Msg.envelope p.1 (F p.2), Msg.done] := by
  rw [workerStreams]
  exact List.map_congr_left fun p _ => do_parallel_pureF F p.2 p.1 uw

theorem donesIn_cons (s : List (Msg γ)) (ss : List (List (Msg γ))) :
    donesIn (s :: ss) = countDones s + donesIn ss := by
  simp [donesIn, countDones]

theorem envsIn_cons (s : List (Msg γ)) (ss : List (List (Msg γ))) :
    envsIn (s :: ss) = s.filterMap envOf ++ envsIn ss := by
  simp [envsIn]

theorem donesIn_pure (F : List α → List γ) (args : List (Nat × List α)) :
    donesIn (args.map fun p => [Msg.envelope p.1 (F p.2), Msg.done]) =
      args.length := by
  induction args with
  | nil => rfl
  | cons p args ih =>
      rw [List.map_cons, donesIn_cons, ih, countDones_env, countDones_done,
        countDones_nil, List.length_cons]
      omega

theorem envsIn_pure (F : List α → List γ) (args : List (Nat × List α)) :
    envsIn (args.map fun p => [Msg.envelope p.1 (F p.2), Msg.done]) =
      args.map fun p => (p.1, F p.2) := by
  induction args with
  | nil => rfl
  | cons p args ih =>
      rw [List.map_cons, envsIn_cons, ih, List.map_cons]
      simp [envOf]

theorem idxLookup_enumFrom (F : List α → List γ) :
    ∀ (l : List (List α)) (s j : Nat),
      idxLookup ((List.enumFrom s l).map fun p => (p.1, F p.2)) (s + j) =
        (l[j]?).map F
  | [], s, j => by simp [List.enumFrom, idxLookup]
  | c :: l, s, 0 => by simp [List.enumFrom, idxLookup]
  | c :: l, s, j + 1 => by
      have ih := idxLookup_enumFrom F l (s + 1) j
      rw [List.enumFrom, List.map_cons, idxLookup, if_neg (by omega)]
      rw [show s + (j + 1) = s + 1 + j by omega, ih]
      simp

theorem idxLookup_enum (F : List α → List γ) (l : List (List α)) (j : Nat) :
    idxLookup ((l.enum).map fun p => (p.1, F p.2)) j = (l[j]?).map F := by
  have := idxLookup_enumFrom F l 0 j
  rwa [Nat.zero_add] at this

/-- Index bound of `enumerate`: every tagged index is below the list
length. -/
theorem enum_fst_lt {l : List (List α)} {p : Nat × List α} (hp : p ∈ l.enum) :
    p.1 < l.length := by
  obtain ⟨i, c⟩ := p
  rw [List.enum_eq_zip_range] at hp
  have := List.of_mem_zip hp
  exact List.mem_range.mp this.1

/-- Success-path collection over any interleaving: with `n` worker
streams tagged `0 … n-1`, each carrying one envelope `F(chunk i)` and
one completion marker, the loop returns the per-partition results in
partition-index order. -/
theorem collect_success (F : List α → List γ) (uw : Bool)
    (chunks : List (List α)) (n : Nat) (hlen : chunks.length = n)
    (ms : List (Msg γ))
    (harr : Arrival (workerStreams (pureF F) uw chunks.enum) ms) :
    collectGo n 0 (List.replicate n []) ms = some (chunks.map F) := by
  rw [workerStreams_pureF] at harr
  have hshape : ∀ s ∈ (chunks.enum.map fun p => [Msg.envelope p.1 (F p.2), Msg.done]),
      entryOk n s := by
    intro s hs
    rw [List.mem_map] at hs
    obtain ⟨p, hp, rfl⟩ := hs
    exact Or.inl ⟨p.1, F p.2, hlen ▸ enum_fst_lt hp, rfl⟩
  have hfst : (envsIn (chunks.enum.map fun p =>
      [Msg.envelope p.1 (F p.2), Msg.done])).map Prod.fst = List.range n := by
    rw [envsIn_pure, List.map_map]
    have : (Prod.fst ∘ fun p : Nat × List α => (p.1, F p.2)) = Prod.fst := rfl
    rw [this, List.enum_map_fst, hlen]
  have hcount : ∀ j, ((envsIn (chunks.enum.map fun p =>
      [Msg.envelope p.1 (F p.2), Msg.done])).map Prod.fst).count j ≤ 1 := by
    intro j
    rw [hfst]
    exact List.nodup_iff_count_le_one.mp (List.nodup_range n) j
  obtain ⟨g', hcoll, hglen, hspec⟩ := collectGo_spec harr 0 (List.replicate n [])
    (by simp) (by rw [donesIn_pure, List.enum_length, hlen]; omega) hshape hcount
  rw [hcoll]
  congr 1
  refine List.ext_getElem? fun j => ?_
  by_cases hj : j < n
  · rw [hspec j hj, envsIn_pure, idxLookup_enum]
    have hcj : j < chunks.length := by omega
    rw [List.getElem?_eq_getElem hcj]
    simp [Option.or, List.getElem?_map, List.getElem?_eq_getElem hcj]
  · rw [List.getElem?_eq_none (by omega), List.getElem?_eq_none (by simp; omega)]

/-- A `parallel_data_prefetch` run whose setup succeeded with exactly
`n_proc` chunks and whose `func` never raises returns, for every
arrival interleaving, the per-chunk results reassembled in partition
index order. -/
theorem prefetch_run_ok (F : List α → List γ) (uw : Bool) (data : PyData α)
    (n : Nat) (target : String) (chunks : List (List α)) (w : Bool)
    (hsetup : setupArgs data n target = .ok (chunks.enum, w))
    (hlen : chunks.length = n) (ms : List (Msg γ))
    (harr : Arrival (prefetchStreams (pureF F) uw data n target) ms) :
    parallel_data_prefetch (pureF F) data n target uw ms =
      .ok (assemble target (chunks.map F)) := by
  rw [prefetchStreams, hsetup] at harr
  rw [parallel_data_prefetch, hsetup]
  rw [collect_success F uw chunks n hlen ms harr]

theorem takeChunks_flatten (xs : List α) (sizes : List Nat) :
    (takeChunks xs sizes).flatten = xs.take sizes.sum := by
  induction sizes generalizing xs with
  | nil => simp [takeChunks]
  | cons s sizes ih =>
      rw [takeChunks, List.flatten_cons, ih, List.sum_cons, List.take_add]

theorem takeChunks_length (xs : List α) (sizes : List Nat) :
    (takeChunks xs sizes).length = sizes.length := by
  induction sizes generalizing xs with
  | nil => rfl
  | cons s sizes ih => rw [takeChunks, List.length_cons, ih, List.length_cons]

theorem splitSizes_sum (l n : Nat) (hn : 1 ≤ n) : (splitSizes l n).sum = l := by
  have h1 : l % n < n := Nat.mod_lt _ hn
  have h2 : l % n + n * (l / n) = l := Nat.mod_add_div l n
  have h3 : (n - l % n) * (l / n) + (l % n) * (l / n) = n * (l / n) := by
    rw [← Nat.add_mul, Nat.sub_add_cancel (Nat.le_of_lt h1)]
  rw [splitSizes, List.sum_append, List.sum_replicate, List.sum_replicate,
    smul_eq_mul, smul_eq_mul, Nat.mul_succ]
  omega

theorem splitSizes_length (l n : Nat) (hn : 1 ≤ n) :
    (splitSizes l n).length = n := by
  have h1 : l % n < n := Nat.mod_lt _ hn
  rw [splitSizes, List.length_append, List.length_replicate, List.length_replicate]
  omega

/-- Fact: `np.array_split` has exactly `n` parts. -/
theorem arraySplit_length (xs : List α) (n : Nat) (hn : 1 ≤ n) :
    (arraySplit xs n).length = n := by
  rw [arraySplit, takeChunks_length, splitSizes_length _ _ hn]

/-- Partition completeness of `np.array_split`: concatenating the
parts in order gives back the input — no gaps, no overlaps. -/
theorem arraySplit_flatten (xs : List α) (n : Nat) (hn : 1 ≤ n) :
    (arraySplit xs n).flatten = xs := by
  rw [arraySplit, takeChunks_flatten, splitSizes_sum _ _ hn, List.take_length]

theorem stride_chunks_flatten (st : Nat) :
    ∀ (m : Nat) (xs : List α), xs.length ≤ m * st →
      ((List.range m).map fun k => (xs.drop (k * st)).take st).flatten = xs := by
  intro m
  induction m with
  | zero =>
      intro xs h
      rw [Nat.zero_mul, Nat.le_zero] at h
      rw [List.eq_nil_of_length_eq_zero h]
      rfl
  | succ m ih =>
      intro xs h
      rw [List.range_succ_eq_map, List.map_cons, List.map_map, List.flatten_cons]
      have hfun : ((fun k => (xs.drop (k * st)).take st) ∘ Nat.succ) =
          fun k => ((xs.drop st).drop (k * st)).take st := by
        funext k
        simp [Function.comp, Nat.succ_mul, List.drop_drop, Nat.add_comm]
      have hlen2 : (xs.drop st).length ≤ m * st := by
        rw [List.length_drop]
        rw [Nat.succ_mul] at h
        omega
      rw [hfun, ih (xs.drop st) hlen2]
      simp

theorem le_ceilDiv_mul (l st : Nat) (hst : 1 ≤ st) :
    l ≤ (l + st - 1) / st * st := by
  by_contra hlt
  push_neg at hlt
  have h1 : (l + st - 1) / st + 1 ≤ (l + st - 1) / st := by
    rw [Nat.le_div_iff_mul_le hst, Nat.succ_mul]
    omega
  omega

theorem pyStep_pos (l n : Nat) (hl : 1 ≤ l) : 1 ≤ pyStep l n := by
  rw [pyStep]
  split
  · exact Nat.le_add_left 1 _
  · rename_i h
    push_neg at h
    rcases Nat.eq_zero_or_pos (l / n) with h0 | h0
    · have h2 := Nat.mod_add_div l n
      rw [h0, Nat.mul_zero] at h2
      omega
    · exact h0

theorem listSplit_length (xs : List α) (n : Nat) :
    (listSplit xs n).length =
      (xs.length + pyStep xs.length n - 1) / pyStep xs.length n := by
  rw [listSplit, List.length_map, List.length_range]

/-- Partition completeness of the fixed-stride chunking on the
non-ndarray path: concatenating the chunks in order gives back the
input. -/
theorem listSplit_flatten (xs : List α) (n : Nat) (hl : 1 ≤ xs.length) :
    (listSplit xs n).flatten = xs := by
  rw [listSplit]
  exact stride_chunks_flatten _ _ xs
    (le_ceilDiv_mul xs.length _ (pyStep_pos _ _ hl))

/-- C1: for every input collection `data` (given as an array or a
list) and every worker count `n ∈ {1, 2, 8}`, `parallel_data_prefetch`
with the identity function (and the default `"ndarray"` result kind)
returns, under every arrival interleaving of the worker messages, a
collection element-wise equal, in order, to `data`: each global
position holds exactly what a single-worker call would produce there. -/
theorem claim1_identity_order_preservation (xs : List Nat) (n : Nat)
    (hn : n = 1 ∨ n = 2 ∨ n = 8) (d : PyData Nat)
    (hd : d = PyData.ndarray xs ∨ d = PyData.list xs) (ms : List (Msg Nat))
    (harr : Arrival (prefetchStreams (pureF id) false d n "ndarray") ms) :
    parallel_data_prefetch (pureF id) d n "ndarray" false ms =
      .ok (.arr xs) := by
  have hn1 : 1 ≤ n := by rcases hn with rfl | rfl | rfl <;> omega
  have hnorm : normalizeData d "ndarray" = .ok (xs, false) := by
    rcases hd with rfl | rfl <;> rfl
  have hchunks : mkChunks xs n "ndarray" = .ok (arraySplit xs n) := by
    rw [mkChunks, if_pos rfl, if_neg (by omega : ¬ n = 0)]
  have hsetup : setupArgs d n "ndarray" = .ok ((arraySplit xs n).enum, false) := by
    simp only [setupArgs, hnorm, hchunks]
    rw [if_neg (by rw [arraySplit_length _ _ hn1]; omega)]
    rw [List.take_of_length_le (by rw [List.enum_length, arraySplit_length _ _ hn1])]
  rw [prefetch_run_ok id false d n "ndarray" (arraySplit xs n) false hsetup
    (arraySplit_length _ _ hn1) ms harr]
  rw [List.map_id, assemble, if_pos rfl, arraySplit_flatten _ _ hn1]

theorem claim1_witness :
    parallel_data_prefetch (pureF id) (PyData.ndarray [3, 5, 7]) 2 "ndarray" false
      ((prefetchStreams (pureF id) false (PyData.ndarray [3, 5, 7]) 2 "ndarray").flatten) =
      .ok (.arr [3, 5, 7]) :=
  claim1_identity_order_preservation [3, 5, 7] 2 (Or.inr (Or.inl rfl))
    (PyData.ndarray [3, 5, 7]) (Or.inl rfl) _ (arrival_flatten _)

/-- C4: for every input and every worker count `n_proc ≥ 1` — in
particular when the length does not divide evenly — the partitions
computed by `parallel_data_prefetch` cover every index exactly once,
with no gaps and no overlaps: concatenating the `np.array_split`
partitions (ndarray path, exactly `n_proc` of them) or the fixed-stride
partitions (list path, non-empty input) in order restores the input, so
each element lies in exactly one partition. -/
theorem claim4_partition_completeness {α : Type} (xs : List α) (n : Nat)
    (hn : 1 ≤ n) :
    (arraySplit xs n).flatten = xs ∧ (arraySplit xs n).length = n ∧
      (xs ≠ [] → (listSplit xs n).flatten = xs) :=
  ⟨arraySplit_flatten xs n hn, arraySplit_length xs n hn,
    fun hne => listSplit_flatten xs n (List.length_pos.mpr hne)⟩

theorem claim4_witness :
    (arraySplit [0, 1, 2, 3, 4] 2).flatten = [0, 1, 2, 3, 4] ∧
      (arraySplit [0, 1, 2, 3, 4] 2).length = 2 ∧
      ([0, 1, 2, 3, 4] ≠ [] → (listSplit [0, 1, 2, 3, 4] 2).flatten = [0, 1, 2, 3, 4]) :=
  claim4_partition_completeness [0, 1, 2, 3, 4] 2 (by omega)

/-- C7: a dict passed as `data` is replaced by the list of its values
in insertion order — the keys are discarded — and the warning to the
caller is printed (the `true` flag), whatever the target data type. -/
theorem claim7_dict_values {α : Type} (kvs : List (String × α)) (target : String) :
    normalizeData (PyData.dict kvs) target = .ok (kvs.map Prod.snd, true) := rfl

/-- C9: a configuration mapping with no `"target"` key makes
`instantiate_from_config` raise `KeyError` and construct nothing. -/
theorem claim9_missing_target_keyerror {V : Type} (kvs : List (String × V))
    (h : hasKey kvs "target" = false) :
    instantiate_from_config (PyConfig.map kvs) =
      .error (.keyError "Expected key target to instantiate.") := by
  rw [instantiate_from_config]
  rw [show targetIn (PyConfig.map kvs) = hasKey kvs "target" from rfl, h]
  rfl

theorem claim9_witness :
    instantiate_from_config (PyConfig.map [("params", 0)]) =
      .error (.keyError "Expected key target to instantiate.") :=
  claim9_missing_target_keyerror [("params", 0)] rfl

/-- C10: the exact strings `'__is_first_stage__'` and
`'__is_unconditional__'` make `instantiate_from_config` return `None`
without raising, although neither satisfies the `"target"`-in-config
test. -/
theorem claim10_magic_strings :
    instantiate_from_config (V := Nat) (PyConfig.str "__is_first_stage__") =
        .ok .pyNone ∧
      instantiate_from_config (V := Nat) (PyConfig.str "__is_unconditional__") =
        .ok .pyNone ∧
      targetIn (V := Nat) (PyConfig.str "__is_first_stage__") = false ∧
      targetIn (V := Nat) (PyConfig.str "__is_unconditional__") = false :=
  ⟨rfl, rfl, by decide, by decide⟩

/-- C3 counterexample: the non-array input `[1, 2, 3]` with
`target_data_type = "ndarray"` does not raise — validation succeeds
(the list is converted with `np.asarray`), the single worker is
started, `F` is invoked (its result sits in the emitted envelope), and
the call returns normally. -/
theorem claim3_counterexample :
    normalizeData (PyData.list [1, 2, 3]) "ndarray" = .ok ([1, 2, 3], false) ∧
      prefetchStreams (pureF id) false (PyData.list [1, 2, 3]) 1 "ndarray" =
        [[Msg.envelope 0 [1, 2, 3], Msg.done]] ∧
      Arrival (prefetchStreams (pureF id) false (PyData.list [1, 2, 3]) 1 "ndarray")
        [Msg.envelope 0 [1, 2, 3], Msg.done] ∧
      parallel_data_prefetch (pureF id) (PyData.list [1, 2, 3]) 1 "ndarray" false
        [Msg.envelope 0 [1, 2, 3], Msg.done] = .ok (.arr [1, 2, 3]) := by
  refine ⟨rfl, rfl, ?_, rfl⟩
  have h := arrival_flatten
    (prefetchStreams (pureF id) false (PyData.list [1, 2, 3]) 1 "ndarray")
  simpa using h

/-- C3 amended: the type-mismatch `ValueError` fires in the opposite
direction — for every ndarray input with `target_data_type = "list"`
the call raises before any worker is started (no worker streams exist,
and the outcome is the error for every arrival sequence); a non-array
iterable with `"ndarray"` requested is instead converted and processed
normally. -/
theorem claim3_amended_type_mismatch (xs : List Nat) (n : Nat) (uw : Bool)
    (func : List Nat → Option Nat → Except PyErr (List Nat)) (ms : List (Msg Nat)) :
    parallel_data_prefetch func (PyData.ndarray xs) n "list" uw ms =
        .error (.valueError "list expected but function got ndarray.") ∧
      prefetchStreams func uw (PyData.ndarray xs) n "list" = [] :=
  ⟨rfl, rfl⟩

/-- C5 counterexample: the spec scenario `data = [0,…,7]`,
`F = lambda x: x*2`, `n_proc = 3`, list result kind.  `F` is applied to
each whole partition, and `*2` on a Python list is repetition, so a
legitimate run (the exhibited arrival order) returns
`[0,1,2,0,1,2,3,4,5,3,4,5,6,7,6,7]`, not `[0,2,4,6,8,10,12,14]`. -/
theorem claim5_counterexample :
    Arrival (prefetchStreams (pureF pyListTimesTwo) false
        (PyData.list [0, 1, 2, 3, 4, 5, 6, 7]) 3 "list")
      ((prefetchStreams (pureF pyListTimesTwo) false
        (PyData.list [0, 1, 2, 3, 4, 5, 6, 7]) 3 "list").flatten) ∧
      parallel_data_prefetch (pureF pyListTimesTwo)
        (PyData.list [0, 1, 2, 3, 4, 5, 6, 7]) 3 "list" false
        ((prefetchStreams (pureF pyListTimesTwo) false
          (PyData.list [0, 1, 2, 3, 4, 5, 6, 7]) 3 "list").flatten) =
        .ok (.lst [0, 1, 2, 0, 1, 2, 3, 4, 5, 3, 4, 5, 6, 7, 6, 7]) ∧
      (Outcome.ok (.lst [0, 1, 2, 0, 1, 2, 3, 4, 5, 3, 4, 5, 6, 7, 6, 7]) : Outcome Nat) ≠
        .ok (.lst [0, 2, 4, 6, 8, 10, 12, 14]) :=
  ⟨arrival_flatten _, rfl, by decide⟩

/-- C5 amended: with `data = [0,…,7]`, `F = lambda x: x*2`, `n_proc = 3`
and list result kind, the partitions are `[0,1,2], [3,4,5], [6,7]`, `F`
doubles each partition by list repetition, and the call returns
`[0,1,2,0,1,2,3,4,5,3,4,5,6,7,6,7]` — this much regardless of which
worker finishes first (any arrival interleaving). -/
theorem claim5_amended_scenario (ms : List (Msg Nat))
    (harr : Arrival (prefetchStreams (pureF pyListTimesTwo) false
      (PyData.list [0, 1, 2, 3, 4, 5, 6, 7]) 3 "list") ms) :
    parallel_data_prefetch (pureF pyListTimesTwo)
      (PyData.list [0, 1, 2, 3, 4, 5, 6, 7]) 3 "list" false ms =
      .ok (.lst [0, 1, 2, 0, 1, 2, 3, 4, 5, 3, 4, 5, 6, 7, 6, 7]) := by
  have h := prefetch_run_ok pyListTimesTwo false
    (PyData.list [0, 1, 2, 3, 4, 5, 6, 7]) 3 "list"
    [[0, 1, 2], [3, 4, 5], [6, 7]] false rfl rfl ms harr
  rw [h]
  rfl

theorem claim5_amended_witness :
    parallel_data_prefetch (pureF pyListTimesTwo)
      (PyData.list [0, 1, 2, 3, 4, 5, 6, 7]) 3 "list" false
      ((prefetchStreams (pureF pyListTimesTwo) false
        (PyData.list [0, 1, 2, 3, 4, 5, 6, 7]) 3 "list").flatten) =
      .ok (.lst [0, 1, 2, 0, 1, 2, 3, 4, 5, 3, 4, 5, 6, 7, 6, 7]) :=
  claim5_amended_scenario _ (arrival_flatten _)

/-- C8: for non-empty list-kind data, when the fixed-stride chunking
produces fewer than `n_proc` chunks, `parallel_data_prefetch` raises
`IndexError` while assembling the worker arguments: the outcome is the
error for every arrival sequence and no worker stream exists. -/
theorem claim8_index_error {α γ : Type} (xs : List α) (n : Nat) (target : String)
    (func : List α → Option Nat → Except PyErr (List γ)) (uw : Bool)
    (ms : List (Msg γ)) (hne : xs ≠ []) (hn : 1 ≤ n) (ht : target ≠ "ndarray")
    (hfew : (listSplit xs n).length < n) :
    parallel_data_prefetch func (PyData.list xs) n target uw ms =
        .error .indexError ∧
      prefetchStreams func uw (PyData.list xs) n target = [] := by
  have hstep : ¬ pyStep xs.length n = 0 := by
    have := pyStep_pos xs.length n (List.length_pos.mpr hne)
    omega
  have hchunks : mkChunks xs n target = .ok (listSplit xs n) := by
    rw [mkChunks, if_neg ht, if_neg (by omega : ¬ n = 0), if_neg hstep]
  have hsetup : setupArgs (PyData.list xs) n target = .error .indexError := by
    simp only [setupArgs, normalizeData, hchunks, if_pos hfew]
  constructor
  · simp only [parallel_data_prefetch, hsetup]
  · simp only [prefetchStreams, hsetup]

theorem claim8_witness :
    parallel_data_prefetch (pureF id) (PyData.list [0, 1, 2, 3, 4]) 8 "list" false
        ([] : List (Msg Nat)) = .error .indexError ∧
      prefetchStreams (pureF id) false (PyData.list [0, 1, 2, 3, 4]) 8 "list" = [] :=
  claim8_index_error [0, 1, 2, 3, 4] 8 "list" (pureF id) false []
    (by decide) (by decide) (by decide) (by decide)

/-- C2 counterexample: in the scenario of the claim — `F` raises on
partition 3 of 8 — a legitimate run (the exhibited arrival order of the
seven surviving workers' messages) makes the coordinator block forever
on `Q.get()`: the outcome is `hang`, and in particular the original
error is never re-raised to the caller. -/
theorem claim2_counterexample :
    Arrival (prefetchStreams failOn67 false dataFail 8 "list")
      ((prefetchStreams failOn67 false dataFail 8 "list").flatten) ∧
      parallel_data_prefetch failOn67 dataFail 8 "list" false
        ((prefetchStreams failOn67 false dataFail 8 "list").flatten) = .hang ∧
      ∀ e : PyErr, parallel_data_prefetch failOn67 dataFail 8 "list" false
        ((prefetchStreams failOn67 false dataFail 8 "list").flatten) ≠ .error e := by
  have hrun : parallel_data_prefetch failOn67 dataFail 8 "list" false
      ((prefetchStreams failOn67 false dataFail 8 "list").flatten) = .hang := by
    rfl
  refine ⟨arrival_flatten _, hrun, ?_⟩
  intro e h
  rw [hrun] at h
  exact Outcome.noConfusion h

/-- C2 amended: when `F` raises inside a worker, that worker dies
without putting anything on the queue (its stream is empty), so only
`n_proc - 1` completion markers can ever arrive; the coordinator's
`except` branch never observes the worker's exception — under every
arrival interleaving the call neither returns nor re-raises but blocks
forever.  (Only an exception raised in the coordinator itself would
trigger the terminate-join-reraise path.)  No partial result is ever
returned, vacuously. -/
theorem claim2_amended_worker_failure_hangs :
    do_parallel_data_prefetch failOn67 [6, 7] 3 false = [] ∧
      donesIn (prefetchStreams failOn67 false dataFail 8 "list") = 7 ∧
      ∀ ms, Arrival (prefetchStreams failOn67 false dataFail 8 "list") ms →
        parallel_data_prefetch failOn67 dataFail 8 "list" false ms = .hang := by
  refine ⟨rfl, rfl, ?_⟩
  intro ms harr
  have hc : countDones ms = 7 := by
    have h := harr.countP_eq isDoneMsg
    rw [countDones, h]
    rfl
  have hnone : collectGo 8 0 (List.replicate 8 ([] : List Nat)) ms = none :=
    collectGo_hang ms 0 _ (by omega)
  simp only [parallel_data_prefetch,
    show setupArgs dataFail 8 "list" =
      .ok ([(0, [0, 1]), (1, [2, 3]), (2, [4, 5]), (3, [6, 7]), (4, [8, 9]),
        (5, [10, 11]), (6, [12, 13]), (7, [14, 15])], false) from rfl]
  rw [hnone]

theorem claim2_amended_witness :
    parallel_data_prefetch failOn67 dataFail 8 "list" false
      ((prefetchStreams failOn67 false dataFail 8 "list").flatten) = .hang :=
  claim2_amended_worker_failure_hangs.2.2 _ (arrival_flatten _)

/-- C6: on the success path of a run whose setup produced exactly
`n_proc` chunks, (i) each worker stream holds exactly one result
envelope and exactly one completion marker; (ii) the collection loop
never stops while fewer than `n_proc` completion markers have arrived;
(iii) under every arrival interleaving the call returns the
per-partition results reassembled in partition-index order, not arrival
order. -/
theorem claim6_success_invariants {α γ : Type} (F : List α → List γ) (uw : Bool)
    (data : PyData α) (n : Nat) (target : String) (chunks : List (List α))
    (w : Bool) (hsetup : setupArgs data n target = .ok (chunks.enum, w))
    (hlen : chunks.length = n) :
    (∀ s ∈ prefetchStreams (pureF F) uw data n target,
        s.countP isEnvMsg = 1 ∧ s.countP isDoneMsg = 1) ∧
      (∀ ms : List (Msg γ), countDones ms < n →
        collectGo n 0 (List.replicate n []) ms = none) ∧
      (∀ ms, Arrival (prefetchStreams (pureF F) uw data n target) ms →
        parallel_data_prefetch (pureF F) data n target uw ms =
          .ok (assemble target (chunks.map F))) := by
  refine ⟨?_, ?_, ?_⟩
  · intro s hs
    simp only [prefetchStreams, hsetup, workerStreams_pureF] at hs
    rw [List.mem_map] at hs
    obtain ⟨p, _, rfl⟩ := hs
    constructor <;> simp [List.countP_cons, isEnvMsg, isDoneMsg]
  · intro ms hms
    exact collectGo_hang ms 0 _ (by omega)
  · intro ms harr
    exact prefetch_run_ok F uw data n target chunks w hsetup hlen ms harr

theorem claim6_witness :
    parallel_data_prefetch (pureF (id : List Nat → List Nat)) (PyData.list [0, 1])
      2 "list" false
      ((prefetchStreams (pureF (id : List Nat → List Nat)) false (PyData.list [0, 1])
        2 "list").flatten) =
      .ok (assemble "list" ([[0], [1]].map id)) :=
  (claim6_success_invariants id false (PyData.list [0, 1]) 2 "list" [[0], [1]]
    false (by rfl) rfl).2.2 _ (arrival_flatten _)

end LdmUtil
